import Mathlib

/-
Verification of the Othello backend core (rules, board transition, game
controller, evaluator, Zobrist hashing, transposition cache, difficulty
selection, negamax AI) against its natural-language specification.

The Python source is shallowly embedded: boards are lists of rows of
integers, machine floats are modelled as rationals extended with the two
infinities where the code manipulates float('inf'), fallible code returns
Except, and the process-wide mutable cache is threaded explicitly as a
table value.  Python's `a, b = f(...)` tuple unpacking of a sequence is
modelled by `unpackPair`, which fails exactly when the sequence does not
have two elements (in Python this raises ValueError).
-/

namespace Othello

/-- An Othello board: a list of rows, each a list of cells
(0 = empty, 1 = black, -1 = white). -/
abbrev Board := List (List Int)

/-- The board shape invariant enforced at the request boundary:
exactly 8 rows of exactly 8 columns. -/
def isValidBoard (b : Board) : Prop := b.length = 8 ∧ ∀ row ∈ b, row.length = 8

instance (b : Board) : Decidable (isValidBoard b) := by
  unfold isValidBoard; infer_instance

/-- board[r][c]; used only under an `inBounds` guard, mirroring the source. -/
def cellAt (b : Board) (r c : Int) : Int := (b.getD r.toNat []).getD c.toNat 0

/-- new_board[r][c] = v; used only at in-bounds positions. -/
def setCell (b : Board) (r c : Int) (v : Int) : Board :=
  b.set r.toNat ((b.getD r.toNat []).set c.toNat v)

/-- rules.DIRECTIONS -/
def DIRECTIONS : List (Int × Int) :=
  [(-1, -1), (-1, 0), (-1, 1), (0, -1), (0, 1), (1, -1), (1, 0), (1, 1)]

/-- rules.in_bounds -/
def inBounds (r c : Int) : Bool := 0 ≤ r && r < 8 && 0 ≤ c && c < 8

/-- All (row, col) pairs in row-major order, as iterated by the source. -/
def boardCoords : List (Int × Int) :=
  (List.range 8).flatMap (fun r => (List.range 8).map (fun c => ((r : Int), (c : Int))))

/-- The while-loop of rules.get_flips along one direction: collect the
contiguous run of opponent discs and return it with the final position.
Fuel 8 is exact: the scan starts in bounds and each step moves a nonzero
direction component, so after 8 steps that coordinate has left [0,7] and
the Python loop would also have stopped. -/
def scanRay (b : Board) (opponent dr dc : Int) : Nat → Int → Int → List (Int × Int) × Int × Int
  | 0, r, c => ([], r, c)
  | fuel + 1, r, c =>
    if inBounds r c && cellAt b r c == opponent then
      let rest := scanRay b opponent dr dc fuel (r + dr) (c + dc)
      ((r, c) :: rest.1, rest.2)
    else ([], r, c)

/-- One direction's contribution inside rules.get_flips: the scanned line,
kept only if it is nonempty and closed by a same-player disc in bounds. -/
def dirFlips (b : Board) (player row col : Int) (d : Int × Int) : List (Int × Int) :=
  let s := scanRay b (-player) d.1 d.2 8 (row + d.1) (col + d.2)
  if inBounds s.2.1 s.2.2 && cellAt b s.2.1 s.2.2 == player && !s.1.isEmpty then s.1 else []

/-- rules.get_flips -/
def get_flips (b : Board) (player row col : Int) : List (Int × Int) :=
  if !inBounds row col then []
  else if cellAt b row col != 0 then []
  else DIRECTIONS.foldl (fun flips d => flips ++ dirFlips b player row col d) []

/-- rules.get_valid_moves: legal cells in row-major scan order. -/
def get_valid_moves (b : Board) (player : Int) : List (Int × Int) :=
  boardCoords.filter (fun rc => !(get_flips b player rc.1 rc.2).isEmpty)

/-- board.apply_move: fails with "Invalid move" when the flip set is empty,
otherwise sets the target cell and every flipped cell to the player. -/
def apply_move (b : Board) (player row col : Int) : Except String Board :=
  let flips := get_flips b player row col
  if flips.isEmpty then .error "Invalid move"
  else .ok (flips.foldl (fun nb rc => setCell nb rc.1 rc.2 player) (setCell b row col player))

/-- game.count_discs: (number of 1-cells, number of (-1)-cells). -/
def count_discs (b : Board) : Nat × Nat :=
  b.foldl
    (fun acc row =>
      row.foldl
        (fun a cell =>
          if cell == 1 then (a.1 + 1, a.2) else if cell == -1 then (a.1, a.2 + 1) else a)
        acc)
    (0, 0)

/-- The dictionary returned by game.make_move. -/
structure GameResult where
  board : Board
  next_player : Int
  valid_moves : List (Int × Int)
  game_over : Bool
  winner : Option Int
deriving DecidableEq

/-- game.make_move -/
def make_move (b : Board) (player row col : Int) : Except String GameResult :=
  (apply_move b player row col).map (fun new_board =>
    let next0 := -player
    let moves0 := get_valid_moves new_board next0
    let next_player := if moves0.isEmpty then player else next0
    let next_moves := if moves0.isEmpty then get_valid_moves new_board player else moves0
    let game_over := next_moves.isEmpty
    let winner : Option Int :=
      if game_over then
        let counts := count_discs new_board
        if counts.1 > counts.2 then some 1 else if counts.2 > counts.1 then some (-1) else none
      else none
    ⟨new_board, next_player, next_moves, game_over, winner⟩)

/-- The count of discs with value v on a board (used to state C8). -/
def discCount (b : Board) (v : Int) : Nat := b.foldl (fun acc row => acc + row.count v) 0

/-- Python `a, b = seq`: succeeds exactly when the sequence has two
elements, otherwise raises ValueError. -/
def unpackPair : List α → Except String (α × α)
  | [a, b] => .ok (a, b)
  | _ => .error "ValueError: not enough or too many values to unpack"

/-- evaluation.clamp01 -/
def clamp01 (v : ℚ) : ℚ := max 0 (min 1 v)

/-- evaluation.game_progress -/
def game_progress (b : Board) : ℚ :=
  let filled : Nat := b.foldl (fun acc row => acc + row.countP (fun cell => !(cell == 0))) 0
  clamp01 ((filled : ℚ) / 64)

/-- evaluation.enhanced_mobility -/
def enhanced_mobility (b : Board) (player : Int) : ℚ :=
  let opponent := -player
  let my_current := (get_valid_moves b player).length
  let opp_current := (get_valid_moves b opponent).length
  let pot := boardCoords.foldl
    (fun (acc : Nat × Nat) rc =>
      if cellAt b rc.1 rc.2 == 0 then
        let adj_to_my_opp := DIRECTIONS.any
          (fun d => inBounds (rc.1 + d.1) (rc.2 + d.2) && cellAt b (rc.1 + d.1) (rc.2 + d.2) == opponent)
        let adj_to_opp_opp := DIRECTIONS.any
          (fun d => inBounds (rc.1 + d.1) (rc.2 + d.2) && cellAt b (rc.1 + d.1) (rc.2 + d.2) == player)
        (if adj_to_my_opp then acc.1 + 1 else acc.1, if adj_to_opp_opp then acc.2 + 1 else acc.2)
      else acc)
    (0, 0)
  let my_total : ℚ := 0.7 * (my_current : ℚ) + 0.3 * (pot.1 : ℚ)
  let opp_total : ℚ := 0.7 * (opp_current : ℚ) + 0.3 * (pot.2 : ℚ)
  let total := my_total + opp_total
  if total = 0 then 0 else 100 * (my_total - opp_total) / total

/-- evaluation.frontier_discs -/
def frontier_discs (b : Board) (player : Int) : ℚ :=
  let opponent := -player
  let counts := boardCoords.foldl
    (fun (acc : Nat × Nat) rc =>
      if cellAt b rc.1 rc.2 == player || cellAt b rc.1 rc.2 == opponent then
        let is_frontier := DIRECTIONS.any
          (fun d => inBounds (rc.1 + d.1) (rc.2 + d.2) && cellAt b (rc.1 + d.1) (rc.2 + d.2) == 0)
        if is_frontier then
          if cellAt b rc.1 rc.2 == player then (acc.1 + 1, acc.2) else (acc.1, acc.2 + 1)
        else acc
      else acc)
    (0, 0)
  let total := counts.1 + counts.2
  if (total : ℚ) = 0 then 0 else 100 * ((counts.2 : ℚ) - (counts.1 : ℚ)) / total

/-- The per-cell stability matrix of evaluation.enhanced_stability. -/
abbrev StabMatrix := List (List Nat)

def stabGet (st : StabMatrix) (r c : Nat) : Nat := (st.getD r []).getD c 0

def stabSet2 (st : StabMatrix) (r c : Nat) : StabMatrix :=
  st.set r ((st.getD r []).set c 2)

/-- A run of one of the stability-marking loops: walk positions while the
cell matches the corner's piece, marking stability 2 (all generated
positions are in bounds, so the in_bounds break of the source never fires). -/
def markWhile (b : Board) (piece : Int) (st : StabMatrix) (ps : List (Nat × Nat)) : StabMatrix :=
  (ps.takeWhile (fun rc => cellAt b rc.1 rc.2 == piece)).foldl
    (fun s rc => stabSet2 s rc.1 rc.2) st

/-- evaluation.enhanced_stability's mark_stable_from_corner. -/
def mark_stable_from_corner (b : Board) (st : StabMatrix) (cx cy : Nat) : StabMatrix :=
  let piece := cellAt b cx cy
  if piece == 0 then st
  else
    let js := if cy == 0 then List.range 8 else (List.range 8).reverse
    let st1 := markWhile b piece st (js.map (fun j => (cx, j)))
    let iis := if cx == 0 then List.range 8 else (List.range 8).reverse
    let st2 := markWhile b piece st1 (iis.map (fun i => (i, cy)))
    let di : Int := if cx == 0 then 1 else -1
    let dj : Int := if cy == 0 then 1 else -1
    let diag := (List.range 8).map (fun k => ((cx + k * di).toNat, (cy + k * dj).toNat))
    markWhile b piece st2 diag

/-- One full-edge check of evaluation.enhanced_stability: if the given edge
cell is occupied, not yet marked, and its whole edge is one color, mark the
edge stable.  `edge n = (r, c)` enumerates the edge's cells. -/
def markFullEdge (b : Board) (st : StabMatrix) (edge : Nat → Nat × Nat) (i : Nat) : StabMatrix :=
  let rc := edge i
  if !(cellAt b rc.1 rc.2 == 0) && stabGet st rc.1 rc.2 == 0 then
    let edge_piece := cellAt b rc.1 rc.2
    if (List.range 8).all (fun j => cellAt b (edge j).1 (edge j).2 == edge_piece) then
      (List.range 8).foldl (fun s j => stabSet2 s (edge j).1 (edge j).2) st
    else st
  else st

/-- evaluation.enhanced_stability -/
def enhanced_stability (b : Board) (player : Int) : ℚ :=
  let opponent := -player
  let st0 : StabMatrix := List.replicate 8 (List.replicate 8 0)
  let st1 := mark_stable_from_corner b st0 0 0
  let st2 := mark_stable_from_corner b st1 0 7
  let st3 := mark_stable_from_corner b st2 7 0
  let st4 := mark_stable_from_corner b st3 7 7
  let st5 := (List.range 8).foldl
    (fun st i =>
      let st := markFullEdge b st (fun j => (0, j)) i
      let st := markFullEdge b st (fun j => (7, j)) i
      let st := markFullEdge b st (fun j => (j, 0)) i
      markFullEdge b st (fun j => (j, 7)) i)
    st4
  let sums := boardCoords.foldl
    (fun (acc : Nat × Nat) rc =>
      if cellAt b rc.1 rc.2 == player then (acc.1 + stabGet st5 rc.1.toNat rc.2.toNat, acc.2)
      else if cellAt b rc.1 rc.2 == opponent then (acc.1, acc.2 + stabGet st5 rc.1.toNat rc.2.toNat)
      else acc)
    (0, 0)
  let total := sums.1 + sums.2
  if (total : ℚ) = 0 then 0 else 100 * ((sums.1 : ℚ) - (sums.2 : ℚ)) / total

/-- The corners, X-squares and C-squares of
evaluation.advanced_corner_evaluation, in source order. -/
def cornersData : List ((Nat × Nat) × (Nat × Nat) × List (Nat × Nat)) :=
  [((0, 0), (1, 1), [(0, 1), (1, 0), (0, 2), (2, 0), (1, 2), (2, 1)]),
   ((0, 7), (1, 6), [(0, 6), (1, 7), (0, 5), (2, 7), (1, 5), (2, 6)]),
   ((7, 0), (6, 1), [(6, 0), (7, 1), (5, 0), (7, 2), (5, 1), (6, 2)]),
   ((7, 7), (6, 6), [(6, 7), (7, 6), (5, 7), (7, 5), (5, 6), (6, 5)])]

/-- evaluation.advanced_corner_evaluation -/
def advanced_corner_evaluation (b : Board) (player : Int) : ℚ :=
  let opponent := -player
  let scores := cornersData.foldl
    (fun (acc : ℚ × ℚ) entry =>
      let corner := entry.1
      let xsq := entry.2.1
      let csqs := entry.2.2
      if cellAt b corner.1 corner.2 == player then (acc.1 + 100, acc.2)
      else if cellAt b corner.1 corner.2 == opponent then (acc.1, acc.2 + 100)
      else
        let acc1 :=
          if cellAt b xsq.1 xsq.2 == player then (acc.1 - 25, acc.2)
          else if cellAt b xsq.1 xsq.2 == opponent then (acc.1, acc.2 - 25)
          else acc
        csqs.foldl
          (fun (a : ℚ × ℚ) csq =>
            if inBounds csq.1 csq.2 then
              if cellAt b csq.1 csq.2 == player then (a.1 - 5, a.2)
              else if cellAt b csq.1 csq.2 == opponent then (a.1, a.2 - 5)
              else a
            else a)
          acc1)
    (0, 0)
  scores.1 - scores.2

/-- evaluation.smart_parity -/
def smart_parity (b : Board) (player : Int) (progress : ℚ) : ℚ :=
  let opponent := -player
  let my_coins := boardCoords.countP (fun rc => cellAt b rc.1 rc.2 == player)
  let opp_coins := boardCoords.countP (fun rc => cellAt b rc.1 rc.2 == opponent)
  let total_coins := my_coins + opp_coins
  if (total_coins : ℚ) = 0 then 0
  else
    let base_parity := 100 * ((my_coins : ℚ) - (opp_coins : ℚ)) / total_coins
    if 0.85 < progress ∧ opp_coins < my_coins then
      base_parity * (1 + 2 * (progress - 0.85) / 0.15)
    else base_parity

/-- The forcing-move counting loop of evaluation.calculate_tempo.  The
source unpacks `temp_board, flips = apply_move(...)`, but apply_move
returns the 8-row board itself, so the unpack raises ValueError and the
move is skipped by the except branch. -/
def countForcing (b : Board) (p : Int) (moves : List (Int × Int)) : Nat :=
  moves.foldl
    (fun acc m =>
      match (apply_move b p m.1 m.2).bind unpackPair with
      | .ok pr => if 3 ≤ pr.2.length then acc + 1 else acc
      | .error _ => acc)
    0

/-- evaluation.calculate_tempo -/
def calculate_tempo (b : Board) (player : Int) : ℚ :=
  let opponent := -player
  let my_moves := get_valid_moves b player
  let opp_moves := get_valid_moves b opponent
  let my_forcing := countForcing b player my_moves
  let opp_forcing := countForcing b opponent opp_moves
  let total_forcing := my_forcing + opp_forcing
  if (total_forcing : ℚ) = 0 then 0
  else 100 * ((my_forcing : ℚ) - (opp_forcing : ℚ)) / total_forcing

/-- evaluation.evaluate_position -/
def evaluate_position (b : Board) (player : Int) : ℚ :=
  let progress := game_progress b
  let w_corner := 150 + 200 * progress
  let w_mobility := 120 - 80 * progress
  let w_parity := 5 + 95 * progress
  let w_stability := 100 + 150 * progress
  let w_frontier := 60 - 30 * progress
  let w_tempo := 40 * (1 - progress)
  let corner_eval := advanced_corner_evaluation b player
  let mobility := enhanced_mobility b player
  let parity := smart_parity b player progress
  let stability := enhanced_stability b player
  let frontier := frontier_discs b player
  let tempo := calculate_tempo b player
  w_corner * corner_eval / 100 + w_mobility * mobility / 100 + w_parity * parity / 100 +
    w_stability * stability / 100 + w_frontier * frontier / 100 + w_tempo * tempo / 100

/-- The float values the search manipulates: rationals extended with
float('-inf') and float('inf'). -/
inductive FVal where
  | negInf : FVal
  | val : ℚ → FVal
  | posInf : FVal
deriving DecidableEq

/-- Python `<` on these floats. -/
def FVal.lt : FVal → FVal → Bool
  | .negInf, .negInf => false
  | .negInf, _ => true
  | .val _, .negInf => false
  | .val a, .val b => a < b
  | .val _, .posInf => true
  | .posInf, _ => false

/-- Adding a finite float to one of these values. -/
def FVal.addQ : FVal → ℚ → FVal
  | .negInf, _ => .negInf
  | .posInf, _ => .posInf
  | .val a, q => .val (a + q)

/-- zobrist.ZobristHasher: the table of per-(square, piece) values and the
side-to-move values.  The process-wide instance is generated once from a
fixed seed; its exact values are irrelevant to the claims, so the table is
a parameter.  The source dict has keys only for pieces 1 and -1 and
players 1 and -1; the claims are stated on that domain. -/
structure ZobristHasher where
  pieceHashes : Nat → Nat → Int → Nat
  playerHash : Int → Nat

/-- All (row, col) squares in the row-major order of the hashing loops. -/
def hashCells : List (Nat × Nat) :=
  (List.range 8).flatMap (fun r => (List.range 8).map (fun c => (r, c)))

/-- The contribution of one square to the hash: its table value when
occupied, nothing when empty. -/
def cellContribution (H : ZobristHasher) (b : Board) (rc : Nat × Nat) : Nat :=
  let piece := (b.getD rc.1 []).getD rc.2 0
  if piece != 0 then H.pieceHashes rc.1 rc.2 piece else 0

/-- zobrist.ZobristHasher.compute_hash -/
def compute_hash (H : ZobristHasher) (b : Board) (player : Int) : Nat :=
  (hashCells.foldl (fun h rc => h ^^^ cellContribution H b rc) 0) ^^^ H.playerHash player

/-- zobrist.ZobristHasher.update_hash_after_move -/
def update_hash_after_move (H : ZobristHasher) (current_hash : Nat) (b old_board : Board)
    (old_player new_player : Int) : Nat :=
  hashCells.foldl
    (fun h rc =>
      let old_piece := (old_board.getD rc.1 []).getD rc.2 0
      let new_piece := (b.getD rc.1 []).getD rc.2 0
      if old_piece != new_piece then
        let h1 := if old_piece != 0 then h ^^^ H.pieceHashes rc.1 rc.2 old_piece else h
        if new_piece != 0 then h1 ^^^ H.pieceHashes rc.1 rc.2 new_piece else h1
      else h)
    ((current_hash ^^^ H.playerHash old_player) ^^^ H.playerHash new_player)

/-- The board cells hold only -1, 0 or 1 (the request schema enforces
this); on other values the source's dict lookups would fail. -/
def cellsWellFormed (b : Board) : Prop :=
  ∀ row ∈ b, ∀ x ∈ row, x = -1 ∨ x = 0 ∨ x = 1

instance (b : Board) : Decidable (cellsWellFormed b) := by
  unfold cellsWellFormed; infer_instance

/-- A row of the external positions table (cache.py's Supabase store):
hash, player, depth, and the JSON moves map with textual "(row,col)" keys. -/
structure CacheRow where
  hash : Int
  player : Int
  depth : Int
  moves : List (String × FVal)
deriving DecidableEq

/-- The external positions table. -/
abbrev Table := List CacheRow

/-- The .eq('hash', h).eq('player', p) filter of cache.py's queries. -/
def rowMatches (h p : Int) (row : CacheRow) : Bool := row.hash == h && row.player == p

/-- The writer's serialization in cache.PositionCache.store_position:
the textual key is exactly "(row,col)". -/
def serializeMoveKey (rc : Int × Int) : String :=
  "(" ++ toString rc.1 ++ "," ++ toString rc.2 ++ ")"

/-- store_position's moves_json construction. -/
def movesToJson (evals : List ((Int × Int) × FVal)) : List (String × FVal) :=
  evals.map (fun e => (serializeMoveKey e.1, e.2))

/-- Modelled from the spec: the Supabase `positions` table schema is not in
src/; its upsert resolves conflicts on the (hash, player) key, replacing
the existing entry, and appends a new row otherwise. -/
def upsertRow (t : Table) (row : CacheRow) : Table :=
  if t.any (rowMatches row.hash row.player) then
    t.map (fun r => if rowMatches row.hash row.player r then row else r)
  else t ++ [row]

/-- cache.PositionCache.store_position (over an available backing table):
check the existing depth first; a depth not above it is a no-op that still
reports success; otherwise upsert the new entry. -/
def store_position (t : Table) (h p depth : Int) (evals : List ((Int × Int) × FVal)) :
    Bool × Table :=
  let moves_json := movesToJson evals
  match (t.filter (rowMatches h p)).head? with
  | some row =>
    if depth ≤ row.depth then (true, t)
    else (true, upsertRow t ⟨h, p, depth, moves_json⟩)
  | none => (true, upsertRow t ⟨h, p, depth, moves_json⟩)

/-- Python's int() on the comma-separated parts of a cache key: an optional
minus sign followed by decimal digits (the grammar the writer produces). -/
def parseDigits : List Char → Option Nat → Option Nat
  | [], acc => acc
  | ch :: rest, acc =>
    if ch.isDigit then parseDigits rest (some ((acc.getD 0) * 10 + (ch.toNat - '0'.toNat)))
    else none

def parseIntChars (cs : List Char) : Option Int :=
  match cs with
  | '-' :: rest => (parseDigits rest none).map (fun n => -(n : Int))
  | _ => (parseDigits cs none).map (fun n => (n : Int))

/-- Python str.strip('()'): drop every leading and trailing paren. -/
def stripParens (s : String) : List Char :=
  ((s.toList.dropWhile (fun ch => ch == '(' || ch == ')')).reverse.dropWhile
    (fun ch => ch == '(' || ch == ')')).reverse

/-- Splitting on ',' as the reader's move_str.split(',') does. -/
def splitOnComma (cs : List Char) : List (List Char) :=
  cs.foldr
    (fun ch acc =>
      match acc with
      | [] => if ch == ',' then [[], []] else [[ch]]
      | part :: rest => if ch == ',' then [] :: part :: rest else (ch :: part) :: rest)
    [[]]

/-- The reader's parse in cache.PositionCache.get_cached_position:
strip '()' from the key, split on ',', convert the two parts with int();
anything else raises and turns the whole lookup into a miss. -/
def parseMoveKey (s : String) : Option (Int × Int) :=
  match splitOnComma (stripParens s) with
  | [a, b] =>
    match parseIntChars a, parseIntChars b with
    | some x, some y => some (x, y)
    | _, _ => none
  | _ => none

/-- Parse every entry of a stored moves map back to (row, col) keys; a
single failure aborts the lookup (the source's try/except returns None). -/
def parseMovesJson : List (String × FVal) → Option (List ((Int × Int) × FVal))
  | [] => some []
  | (s, q) :: rest =>
    match parseMoveKey s, parseMovesJson rest with
    | some rc, some tail => some ((rc, q) :: tail)
    | _, _ => none

/-- The dict returned by cache.PositionCache.get_cached_position. -/
structure CachedResult where
  depth : Int
  moves : List ((Int × Int) × FVal)
deriving DecidableEq

/-- cache.PositionCache.get_cached_position (over an available table):
first row matching hash, player and depth >= min_depth, with its moves
parsed back to tuples; None on no match or a parse failure. -/
def get_cached_position (t : Table) (h p min_depth : Int) : Option CachedResult :=
  match (t.filter (fun row => rowMatches h p row && decide (min_depth ≤ row.depth))).head? with
  | some row => (parseMovesJson row.moves).map (fun ms => ⟨row.depth, ms⟩)
  | none => none

/-- The depth the cache currently records for a key (first matching row). -/
def lookupDepth (t : Table) (h p : Int) : Option Int :=
  ((t.filter (rowMatches h p)).head?).map (fun row => row.depth)

/-- A sequence of store_position calls, applied in order. -/
def runStores (t : Table) : List (Int × Int × Int × List ((Int × Int) × FVal)) → Table
  | [] => t
  | (h, p, d, evals) :: rest => runStores (store_position t h p d evals).2 rest

/-- Every stored row's move keys parse back (true of every row the writer
produces). -/
def rowsParse (t : Table) : Prop := ∀ row ∈ t, (parseMovesJson row.moves).isSome

/-- Python str.lower() on the ASCII difficulty labels. -/
def pyLower (s : String) : String := String.mk (s.toList.map Char.toLower)

/-- The randomness the selection layer draws on: random.choice picks the
index `pick mod length`, random.uniform noise is a caller-supplied value
per move. -/
structure Rng where
  pick : Nat
  noise : (Int × Int) → ℚ

/-- random.choice over a nonempty move list. -/
def randomChoice (rng : Rng) (l : List (Int × Int)) : Int × Int :=
  l.getD (rng.pick % l.length) (0, 0)

/-- Python max(items, key=score): iterate, keeping the first maximum. -/
def firstMaxBy (l : List ((Int × Int) × FVal)) : Option ((Int × Int) × FVal) :=
  match l with
  | [] => none
  | x :: xs => some (xs.foldl (fun best y => if FVal.lt best.2 y.2 then y else best) x)

/-- difficulty.DifficultySelector.select_hard_move -/
def select_hard_move (move_evaluations : List ((Int × Int) × FVal)) : Except String (Int × Int) :=
  if move_evaluations.isEmpty then .error "No moves available for selection"
  else
    match firstMaxBy move_evaluations with
    | some best => .ok best.1
    | none => .error "No moves available for selection"

/-- Stable insertion step: x goes before the first strictly smaller score,
after every earlier element with an equal score. -/
def insertDesc (x : (Int × Int) × FVal) :
    List ((Int × Int) × FVal) → List ((Int × Int) × FVal)
  | [] => [x]
  | y :: ys => if FVal.lt y.2 x.2 then x :: y :: ys else y :: insertDesc x ys

/-- Python sorted(items, key=score, reverse=True): stable descending sort. -/
def sortByScoreDesc (l : List ((Int × Int) × FVal)) : List ((Int × Int) × FVal) :=
  l.foldl (fun acc x => insertDesc x acc) []

/-- difficulty.DifficultySelector.select_medium_move -/
def select_medium_move (rng : Rng) (move_evaluations : List ((Int × Int) × FVal)) (k : Nat) :
    Except String (Int × Int) :=
  if move_evaluations.isEmpty then .error "No moves available for selection"
  else
    let sorted_moves := sortByScoreDesc move_evaluations
    let top_moves := sorted_moves.take (min k sorted_moves.length)
    .ok (top_moves.getD (rng.pick % top_moves.length) ((0, 0), FVal.negInf)).1

/-- difficulty.DifficultySelector.select_easy_move -/
def select_easy_move (rng : Rng) (move_evaluations : List ((Int × Int) × FVal))
    (_noise_factor center_bias : ℚ) : Except String (Int × Int) :=
  if move_evaluations.isEmpty then .error "No moves available for selection"
  else
    let noisy_evaluations := move_evaluations.map (fun e =>
      let center_distance : ℚ := |(e.1.1 : ℚ) - 3.5| + |(e.1.2 : ℚ) - 3.5|
      let center_bonus := center_bias * (7 - center_distance) / 7
      (e.1, (e.2.addQ (rng.noise e.1)).addQ center_bonus))
    match firstMaxBy noisy_evaluations with
    | some best => .ok best.1
    | none => .error "No moves available for selection"

/-- difficulty.DifficultySelector.select_expert_move -/
def select_expert_move (move_evaluations : List ((Int × Int) × FVal)) :
    Except String (Int × Int) :=
  select_hard_move move_evaluations

/-- difficulty.select_move_by_difficulty -/
def select_move_by_difficulty (rng : Rng) (move_evaluations : List ((Int × Int) × FVal))
    (difficulty : String) : Except String (Int × Int) :=
  if move_evaluations.isEmpty then .error "No moves available for selection"
  else
    let d := pyLower difficulty
    if d = "easy" then select_easy_move rng move_evaluations 0.3 0.1
    else if d = "medium" then select_medium_move rng move_evaluations 3
    else if d = "hard" then select_hard_move move_evaluations
    else if d = "expert" then select_expert_move move_evaluations
    else .error ("Invalid difficulty level: " ++ d ++ ". Must be one of: easy, medium, hard, expert")

/-- difficulty.get_search_depth_for_difficulty: a fixed depth of 6. -/
def get_search_depth_for_difficulty (_difficulty : String) : Nat := 6

/-- The per-move loop of ai.negamax_search.  Each iteration runs
`new_board, _ = apply_move(board, player, row, col)` inside
try/except ValueError.  apply_move returns the new board itself (a list of
its 8 rows), so for any 8-row board the unpack raises ValueError, which is
caught, and the move is skipped.  If the unpack ever succeeded (a 2-row
board), `new_board` would be bound to the first *row*; the next source
line, get_valid_moves(new_board, opponent), subscripts an int and raises a
TypeError that the except clause does not catch, aborting the search — so
the recursion, score update, evaluation collection and alpha-beta pruning
written below it in the source are unreachable as typed code. -/
def negamaxLoop (b : Board) (player : Int) (collect : Bool) (beta : FVal) :
    List (Int × Int) → FVal → Option (Int × Int) → List ((Int × Int) × FVal) → FVal →
    Except String (FVal × Option (Int × Int) × List ((Int × Int) × FVal))
  | [], best_score, best_move, evals, _alpha => .ok (best_score, best_move, evals)
  | move :: rest, best_score, best_move, evals, alpha =>
    match (apply_move b player move.1 move.2).bind unpackPair with
    | .error _ => negamaxLoop b player collect beta rest best_score best_move evals alpha
    | .ok _rows => .error "TypeError: board row used as a board"

/-- ai.negamax_search: returns (score, best_move, move_evaluations); the
evaluations are collected only at the root.  The error case models an
uncaught Python exception escaping the search. -/
def negamax_search (b : Board) (player : Int) (depth : Nat) (alpha beta : FVal)
    (collect_root_evaluations : Bool) :
    Except String (FVal × Option (Int × Int) × Option (List ((Int × Int) × FVal))) :=
  match depth with
  | 0 => .ok (FVal.val (evaluate_position b player), none, none)
  | _ + 1 =>
    let moves := get_valid_moves b player
    if moves.isEmpty then .ok (FVal.val (evaluate_position b player), none, none)
    else
      (negamaxLoop b player collect_root_evaluations beta moves FVal.negInf none [] alpha).map
        (fun r => (r.1, r.2.1, if collect_root_evaluations then some r.2.2 else none))

/-- The (selected_move, cache_hit, search_depth) triple returned by
ai.find_best_move_with_cache. -/
structure AIAnswer where
  move : Int × Int
  cache_hit : Bool
  depth : Int
deriving DecidableEq

/-- is_cache_available + get_cached_position_sync: a missing backing store
behaves as a permanent miss. -/
def cacheLookup (cache : Option Table) (h p min_depth : Int) : Option CachedResult :=
  match cache with
  | some t => get_cached_position t h p min_depth
  | none => none

/-- ai.find_best_move_with_cache.  The process-wide hasher and cache are
passed explicitly; the function returns the answer together with the cache
state after the call. -/
def find_best_move_with_cache (H : ZobristHasher) (rng : Rng) (cache : Option Table)
    (b : Board) (player : Int) (difficulty : String) :
    Except String (AIAnswer × Option Table) :=
  let moves := get_valid_moves b player
  if moves.isEmpty then .error "AI called with no valid moves"
  else if moves.length == 1 then .ok (⟨moves.headD (0, 0), false, 0⟩, cache)
  else
    let search_depth := get_search_depth_for_difficulty difficulty
    let position_hash : Int := (compute_hash H b player : Int)
    match cacheLookup cache position_hash player (search_depth : Int) with
    | some cached_result =>
      match select_move_by_difficulty rng cached_result.moves difficulty with
      | .ok selected_move => .ok (⟨selected_move, true, cached_result.depth⟩, cache)
      | .error _ => .ok (⟨randomChoice rng moves, false, (search_depth : Int)⟩, cache)
    | none =>
      match negamax_search b player search_depth FVal.negInf FVal.posInf true with
      | .error e => .error e
      | .ok root =>
      let move_evaluations := root.2.2.getD []
      if move_evaluations.isEmpty then
        .ok (⟨randomChoice rng moves, false, (search_depth : Int)⟩, cache)
      else
        let cache1 : Option Table :=
          match cache with
          | some t =>
            some (store_position t position_hash player (search_depth : Int) move_evaluations).2
          | none => none
        match select_move_by_difficulty rng move_evaluations difficulty with
        | .ok selected_move => .ok (⟨selected_move, false, (search_depth : Int)⟩, cache1)
        | .error _ => .ok (⟨randomChoice rng moves, false, (search_depth : Int)⟩, cache1)

/-- The standard Othello starting position (tests/conftest.py). -/
def initialBoard : Board :=
  [[0,0,0,0,0,0,0,0],[0,0,0,0,0,0,0,0],[0,0,0,0,0,0,0,0],[0,0,0,-1,1,0,0,0],
   [0,0,0,1,-1,0,0,0],[0,0,0,0,0,0,0,0],[0,0,0,0,0,0,0,0],[0,0,0,0,0,0,0,0]]

/-- A position where player 1 has exactly one legal move, (0, 2). -/
def oneMoveBoard : Board :=
  [[1,-1,0,0,0,0,0,0],[0,0,0,0,0,0,0,0],[0,0,0,0,0,0,0,0],[0,0,0,0,0,0,0,0],
   [0,0,0,0,0,0,0,0],[0,0,0,0,0,0,0,0],[0,0,0,0,0,0,0,0],[0,0,0,0,0,0,0,0]]

/-- A position where player 1's single legal move (0, 4) captures three
discs and player -1 has no legal move at all. -/
def tempoBoard : Board :=
  [[1,-1,-1,-1,0,0,0,0],[0,0,0,0,0,0,0,0],[0,0,0,0,0,0,0,0],[0,0,0,0,0,0,0,0],
   [0,0,0,0,0,0,0,0],[0,0,0,0,0,0,0,0],[0,0,0,0,0,0,0,0],[0,0,0,0,0,0,0,0]]

/-- A concrete hasher instance used to exercise the claims (the table
values themselves are irrelevant to every claim). -/
def zeroHasher : ZobristHasher := ⟨fun _ _ _ => 0, fun _ => 0⟩

/-- A concrete randomness source: random.choice takes index 0, noise is 0. -/
def rngZero : Rng := ⟨0, fun _ => 0⟩

/-- Modelled from the spec (§4.3, Tempo): a side's forcing count is the
number of its legal moves whose flip set contains at least 3 discs. -/
def forcing_count_spec (b : Board) (player : Int) : Nat :=
  (get_valid_moves b player).countP (fun m => decide (3 ≤ (get_flips b player m.1 m.2).length))

/-- Modelled from the spec (§4.3, Tempo): the relative-advantage percentage
100*(myForcing - oppForcing)/(myForcing + oppForcing) of forcing moves,
zero when neither side has one. -/
def calculate_tempo_from_spec (b : Board) (player : Int) : ℚ :=
  let mf := forcing_count_spec b player
  let onf := forcing_count_spec b (-player)
  if mf + onf = 0 then 0 else 100 * ((mf : ℚ) - (onf : ℚ)) / ((mf : ℚ) + (onf : ℚ))

/-- C1: the claim fails on the code.  On a board where player 1 has exactly
one legal move, negamax_search at depth 1 does not return that move: the
`new_board, _ = apply_move(...)` unpack raises ValueError for every move,
the per-move skip branch swallows it, and the search returns
best_move = None, score = -inf and an empty evaluation map. -/
theorem negamax_skips_the_only_legal_move :
    get_valid_moves oneMoveBoard 1 = [(0, 2)] ∧
    negamax_search oneMoveBoard 1 1 FVal.negInf FVal.posInf true =
      .ok (FVal.negInf, none, some []) :=
  ⟨rfl, rfl⟩

/-- C2: the claim fails on the code.  On tempoBoard player 1 has one
forcing move (three flips) and player -1 has none, so the spec's formula
gives 100; but calculate_tempo always computes 0 because the
`temp_board, flips = apply_move(...)` unpack raises ValueError for every
move and both forcing counts stay 0. -/
theorem calculate_tempo_never_counts_forcing_moves :
    forcing_count_spec tempoBoard 1 = 1 ∧ forcing_count_spec tempoBoard (-1) = 0 ∧
    calculate_tempo_from_spec tempoBoard 1 = 100 ∧ calculate_tempo tempoBoard 1 = 0 := by
  have h1 : forcing_count_spec tempoBoard 1 = 1 := rfl
  have h2 : forcing_count_spec tempoBoard (-1) = 0 := rfl
  have h3 : countForcing tempoBoard 1 (get_valid_moves tempoBoard 1) = 0 := rfl
  have h4 : countForcing tempoBoard (-1) (get_valid_moves tempoBoard (-1)) = 0 := rfl
  refine ⟨h1, h2, ?_, ?_⟩
  · simp only [calculate_tempo_from_spec, h1, h2]
    norm_num
  · simp only [calculate_tempo, h3, h4]
    norm_num

/-- C7: serializing a move (row, col) with both coordinates in [0,7] to the
textual cache key "(row,col)" as the cache writer does, then parsing it as
the cache reader does, returns the original pair. -/
theorem move_key_round_trip :
    ∀ r c : Fin 8, parseMoveKey (serializeMoveKey ((r : Int), (c : Int))) =
      some ((r : Int), (c : Int)) := by decide

lemma setCell_length (b : Board) (r c v : Int) : (setCell b r c v).length = b.length := by
  simp [setCell]

lemma foldl_setCell_length (p : Int) (cells : List (Int × Int)) (b : Board) :
    (cells.foldl (fun nb rc => setCell nb rc.1 rc.2 p) b).length = b.length := by
  induction cells generalizing b with
  | nil => rfl
  | cons x xs ih => simpa [List.foldl_cons, setCell_length] using ih (setCell b x.1 x.2 p)

lemma apply_move_ok_length {b nb : Board} {p r c : Int} (h : apply_move b p r c = .ok nb) :
    nb.length = b.length := by
  simp only [apply_move] at h
  split at h
  · exact absurd h (by simp)
  · simpa [foldl_setCell_length, setCell_length] using congrArg List.length (Except.ok.inj h).symm

lemma unpackPair_ok_length {l : List α} {v : α × α} (h : unpackPair l = .ok v) : l.length = 2 := by
  rcases l with _ | ⟨a, _ | ⟨b, _ | t⟩⟩
  · simp [unpackPair] at h
  · simp [unpackPair] at h
  · rfl
  · simp [unpackPair] at h

/-- Every iteration of the negamax per-move loop skips (for an 8-row
board, the tuple unpack of apply_move's result always raises). -/
lemma negamaxLoop_skips_all {b : Board} (hb : b.length = 8) (player : Int) (collect : Bool)
    (beta : FVal) :
    ∀ (moves : List (Int × Int)) (best_score : FVal) (best_move : Option (Int × Int))
      (evals : List ((Int × Int) × FVal)) (alpha : FVal),
      negamaxLoop b player collect beta moves best_score best_move evals alpha =
        .ok (best_score, best_move, evals) := by
  intro moves
  induction moves with
  | nil => intro best_score best_move evals alpha; rfl
  | cons m rest ih =>
    intro best_score best_move evals alpha
    have hskip : ∀ v, (apply_move b player m.1 m.2).bind unpackPair ≠ Except.ok v := by
      intro v hv
      rcases h2 : apply_move b player m.1 m.2 with e2 | nb
      · rw [h2] at hv; exact absurd hv (by simp [Except.bind])
      · rw [h2] at hv
        have hup : unpackPair nb = .ok v := by simpa [Except.bind] using hv
        have : nb.length = 2 := unpackPair_ok_length hup
        rw [apply_move_ok_length h2, hb] at this
        exact absurd this (by norm_num)
    rcases h : (apply_move b player m.1 m.2).bind unpackPair with e | v
    · simpa [negamaxLoop, h] using ih best_score best_move evals alpha
    · exact absurd h (hskip v)

/-- For an 8-row board with at least one legal move and positive depth,
negamax_search returns -inf, no best move, and (at the root) an empty
evaluation map. -/
lemma negamax_search_empty {b : Board} (hb : b.length = 8) (player : Int) (d : Nat)
    (alpha beta : FVal) (collect : Bool) (hm : get_valid_moves b player ≠ []) :
    negamax_search b player (d + 1) alpha beta collect =
      .ok (FVal.negInf, none, if collect then some [] else none) := by
  unfold negamax_search
  have hne : (get_valid_moves b player).isEmpty = false := by
    simpa [List.isEmpty_iff] using hm
  simp only [hne, Bool.false_eq_true, if_false,
    negamaxLoop_skips_all hb player collect beta (get_valid_moves b player), Except.map]

/-- C10: with exactly one legal move, find_best_move_with_cache returns
that move with cache_hit = False and depth 0, independently of the hasher,
the randomness, the difficulty and the cache, and leaves the cache
unchanged: the single-move case bypasses search and cache entirely. -/
theorem single_move_bypasses_search_and_cache (H : ZobristHasher) (rng : Rng)
    (cache : Option Table) (b : Board) (player : Int) (difficulty : String) (m : Int × Int)
    (h : get_valid_moves b player = [m]) :
    find_best_move_with_cache H rng cache b player difficulty = .ok (⟨m, false, 0⟩, cache) := by
  simp [find_best_move_with_cache, h]

/-- C10 witness: oneMoveBoard with a populated cache and an arbitrary
difficulty: the single legal move comes straight back, depth 0, no hit,
cache untouched. -/
theorem single_move_bypasses_search_and_cache_witness :
    find_best_move_with_cache zeroHasher rngZero (some [⟨0, 1, 6, [("(0,2)", FVal.val 1)]⟩])
      oneMoveBoard 1 "medium" =
      .ok (⟨(0, 2), false, 0⟩, some [⟨0, 1, 6, [("(0,2)", FVal.val 1)]⟩]) :=
  single_move_bypasses_search_and_cache zeroHasher rngZero
    (some [⟨0, 1, 6, [("(0,2)", FVal.val 1)]⟩]) oneMoveBoard 1 "medium" (0, 2) (by decide)

lemma randomChoice_mem (rng : Rng) {l : List (Int × Int)} (h : l ≠ []) :
    randomChoice rng l ∈ l := by
  have hlen : 0 < l.length := List.length_pos.mpr h
  have hlt : rng.pick % l.length < l.length := Nat.mod_lt _ hlen
  simp only [randomChoice, List.getD_eq_getElem?_getD, List.getElem?_eq_getElem hlt,
    Option.getD_some]
  exact List.getElem_mem hlt

/-- C3 counterexample: on the initial position (four legal moves) with no
cache, the root search produces an empty evaluation map, and the fallback
result carries depth 6 — the configured search depth — not the zero depth
the claim states. -/
theorem fallback_depth_is_six_not_zero :
    2 ≤ (get_valid_moves initialBoard 1).length ∧
    negamax_search initialBoard 1 6 FVal.negInf FVal.posInf true =
      .ok (FVal.negInf, none, some []) ∧
    find_best_move_with_cache zeroHasher rngZero none initialBoard 1 "hard" =
      .ok (⟨(2, 3), false, 6⟩, none) :=
  ⟨by decide, rfl, rfl⟩

/-- C3 amended: whenever the cache misses on a position with at least two
legal moves, the root search yields no usable evaluations (a consequence
of the apply_move unpack bug), and find_best_move_with_cache returns a
member of the legal-move list without failing, reported with
cache_hit = False and the configured search depth 6 — not as a zero-depth
result — leaving the cache unchanged. -/
theorem fallback_returns_legal_move_with_search_depth (H : ZobristHasher) (rng : Rng)
    (cache : Option Table) (b : Board) (player : Int) (difficulty : String)
    (hb : b.length = 8) (h2 : 2 ≤ (get_valid_moves b player).length)
    (hmiss : cacheLookup cache ((compute_hash H b player : Int)) player 6 = none) :
    find_best_move_with_cache H rng cache b player difficulty =
      .ok (⟨randomChoice rng (get_valid_moves b player), false, 6⟩, cache) ∧
    randomChoice rng (get_valid_moves b player) ∈ get_valid_moves b player := by
  have hne : get_valid_moves b player ≠ [] := by
    intro h0; rw [h0] at h2; exact absurd h2 (by norm_num)
  have hlen : ((get_valid_moves b player).length == 1) = false := by
    simp only [beq_eq_false_iff_ne]; omega
  have hroot := negamax_search_empty hb player 5 FVal.negInf FVal.posInf true hne
  refine ⟨?_, randomChoice_mem rng hne⟩
  unfold find_best_move_with_cache
  simp only [List.isEmpty_eq_true, hne, if_false, hlen, get_search_depth_for_difficulty,
    Nat.cast_ofNat, hmiss, hroot, Option.getD_some, List.isEmpty_nil, if_true]
  simp

/-- C3 witness: the amended behavior at the initial position with no cache. -/
theorem fallback_returns_legal_move_with_search_depth_witness :
    find_best_move_with_cache zeroHasher rngZero none initialBoard 1 "expert" =
      .ok (⟨randomChoice rngZero (get_valid_moves initialBoard 1), false, 6⟩, none) ∧
    randomChoice rngZero (get_valid_moves initialBoard 1) ∈ get_valid_moves initialBoard 1 :=
  fallback_returns_legal_move_with_search_depth zeroHasher rngZero none initialBoard 1 "expert"
    (by decide) (by decide) (by decide)

/-- An unrecognized difficulty label (after lowering) always makes the
selector fail, whatever the move map. -/
lemma select_invalid_label_errors (rng : Rng) (evals : List ((Int × Int) × FVal))
    (label : String)
    (hlab : pyLower label ∉ (["easy", "medium", "hard", "expert"] : List String)) :
    ∃ msg, select_move_by_difficulty rng evals label = .error msg := by
  have hs : pyLower label ≠ "easy" ∧ pyLower label ≠ "medium" ∧ pyLower label ≠ "hard" ∧
      pyLower label ≠ "expert" := by simpa using hlab
  obtain ⟨n1, n2, n3, n4⟩ := hs
  by_cases he : evals.isEmpty
  · exact ⟨"No moves available for selection", by simp [select_move_by_difficulty, he]⟩
  · exact ⟨"Invalid difficulty level: " ++ pyLower label ++
      ". Must be one of: easy, medium, hard, expert",
      by simp [select_move_by_difficulty, he, n1, n2, n3, n4]⟩

/-- C4 counterexample: the selector does raise its validation error on an
unknown label, but find_best_move_with_cache does not surface it: with a
cached entry and the label "banana", the call succeeds with a fallback
move instead of failing. -/
theorem selection_error_swallowed_not_surfaced :
    (∃ msg, select_move_by_difficulty rngZero [((0, 2), FVal.val 1)] "banana" = .error msg) ∧
    find_best_move_with_cache zeroHasher rngZero
      (some [⟨0, 1, 6, [("(0,2)", FVal.val 1)]⟩]) initialBoard 1 "banana" =
      .ok (⟨(2, 3), false, 6⟩, some [⟨0, 1, 6, [("(0,2)", FVal.val 1)]⟩]) :=
  ⟨⟨"Invalid difficulty level: banana. Must be one of: easy, medium, hard, expert", rfl⟩, rfl⟩

/-- C4 amended: select_move_by_difficulty raises an explicit validation
error on any unrecognized label (case-insensitively) given a non-empty
move map, and on an empty move map for every label; but
find_best_move_with_cache catches the selection error and substitutes a
uniformly random legal move (reported with cache_hit = False and the
search depth) instead of surfacing it. -/
theorem difficulty_validation_and_swallowing_fallback :
    (∀ (rng : Rng) (evals : List ((Int × Int) × FVal)) (label : String), evals ≠ [] →
      pyLower label ∉ (["easy", "medium", "hard", "expert"] : List String) →
      ∃ msg, select_move_by_difficulty rng evals label = .error msg) ∧
    (∀ (rng : Rng) (label : String),
      select_move_by_difficulty rng [] label = .error "No moves available for selection") ∧
    (∀ (H : ZobristHasher) (rng : Rng) (t : Table) (b : Board) (player : Int) (label : String)
      (cr : CachedResult), 2 ≤ (get_valid_moves b player).length →
      get_cached_position t ((compute_hash H b player : Int)) player 6 = some cr →
      pyLower label ∉ (["easy", "medium", "hard", "expert"] : List String) →
      find_best_move_with_cache H rng (some t) b player label =
        .ok (⟨randomChoice rng (get_valid_moves b player), false, 6⟩, some t)) := by
  refine ⟨fun rng evals label _ hlab => select_invalid_label_errors rng evals label hlab,
    fun rng label => rfl, ?_⟩
  intro H rng t b player label cr h2 hhit hlab
  have hne : get_valid_moves b player ≠ [] := by
    intro h0; rw [h0] at h2; exact absurd h2 (by norm_num)
  have hlen : ((get_valid_moves b player).length == 1) = false := by
    simp only [beq_eq_false_iff_ne]; omega
  obtain ⟨msg, hmsg⟩ := select_invalid_label_errors rng cr.moves label hlab
  unfold find_best_move_with_cache
  simp only [List.isEmpty_eq_true, hne, if_false, hlen, get_search_depth_for_difficulty,
    Nat.cast_ofNat, cacheLookup, hhit, hmsg]
  simp

/-- C4 witness: the three amended behaviors at concrete inputs. -/
theorem difficulty_validation_and_swallowing_fallback_witness :
    (∃ msg, select_move_by_difficulty rngZero [((1, 1), FVal.val 2)] "weird" = .error msg) ∧
    select_move_by_difficulty rngZero [] "hard" = .error "No moves available for selection" ∧
    find_best_move_with_cache zeroHasher rngZero (some [⟨0, 1, 7, [("(2,3)", FVal.val 5)]⟩])
      initialBoard 1 "impossible" =
      .ok (⟨randomChoice rngZero (get_valid_moves initialBoard 1), false, 6⟩,
        some [⟨0, 1, 7, [("(2,3)", FVal.val 5)]⟩]) :=
  ⟨difficulty_validation_and_swallowing_fallback.1 rngZero [((1, 1), FVal.val 2)] "weird"
      (by decide) (by decide),
    difficulty_validation_and_swallowing_fallback.2.1 rngZero "hard",
    difficulty_validation_and_swallowing_fallback.2.2 zeroHasher rngZero
      [⟨0, 1, 7, [("(2,3)", FVal.val 5)]⟩] initialBoard 1 "impossible"
      ⟨7, [((2, 3), FVal.val 5)]⟩ (by decide) (by decide) (by decide)⟩

lemma rowMatches_iff {h p : Int} {row : CacheRow} :
    rowMatches h p row = true ↔ row.hash = h ∧ row.player = p := by
  simp [rowMatches]

instance (t : Table) : Decidable (rowsParse t) := by
  unfold rowsParse; infer_instance

/-- Replacing every row of the stored key by the new row makes the new row
the first match of that key (provided some row of the key exists). -/
lemma filter_head_map_replace (t : Table) (h p : Int) (newRow : CacheRow)
    (hmatch : rowMatches h p newRow = true)
    (hex : (t.filter (rowMatches h p)).head? ≠ none) :
    ((t.map (fun r => if rowMatches h p r then newRow else r)).filter
      (rowMatches h p)).head? = some newRow := by
  induction t with
  | nil => simp at hex
  | cons a t ih =>
    rcases ha : rowMatches h p a with _ | _
    · simp only [List.map_cons, ha, Bool.false_eq_true, if_false, List.filter_cons] at hex ⊢
      exact ih hex
    · simp [List.map_cons, ha, List.filter_cons, hmatch]

/-- A store at a different key does not change which rows match a key. -/
lemma filter_map_replace_other (t : Table) (h p : Int) (newRow : CacheRow) (q : CacheRow → Bool)
    (hdisj : ∀ r, rowMatches h p r = true → q r = false)
    (hnew : rowMatches h p newRow = false) :
    ((t.map (fun r => if q r then newRow else r)).filter (rowMatches h p)) =
      t.filter (rowMatches h p) := by
  induction t with
  | nil => rfl
  | cons a t ih =>
    by_cases hq : q a = true
    · have ha : rowMatches h p a = false := by
        rcases hb : rowMatches h p a with _ | _
        · rfl
        · exact absurd (hdisj a hb) (by simp [hq])
      simp [List.filter_cons, hq, hnew, ha, ih]
    · simp [List.filter_cons, hq, ih]

/-- The two branch equations of store_position. -/
lemma store_position_of_head_le {t : Table} {h p d : Int}
    {evals : List ((Int × Int) × FVal)} {row : CacheRow}
    (hhead : (t.filter (rowMatches h p)).head? = some row) (hle : d ≤ row.depth) :
    store_position t h p d evals = (true, t) := by
  simp only [store_position, hhead, if_pos hle]

lemma store_position_of_head_gt {t : Table} {h p d : Int}
    {evals : List ((Int × Int) × FVal)} {row : CacheRow}
    (hhead : (t.filter (rowMatches h p)).head? = some row) (hgt : row.depth < d) :
    store_position t h p d evals = (true, upsertRow t ⟨h, p, d, movesToJson evals⟩) := by
  simp only [store_position, hhead, if_neg (by omega : ¬d ≤ row.depth)]

lemma store_position_of_head_none {t : Table} {h p d : Int}
    {evals : List ((Int × Int) × FVal)}
    (hhead : (t.filter (rowMatches h p)).head? = none) :
    store_position t h p d evals = (true, upsertRow t ⟨h, p, d, movesToJson evals⟩) := by
  simp only [store_position, hhead]

lemma any_of_filter_head {t : Table} {h p : Int} {row : CacheRow}
    (hhead : (t.filter (rowMatches h p)).head? = some row) :
    t.any (rowMatches h p) = true := by
  have hmem := List.mem_of_mem_head? hhead
  exact List.any_eq_true.mpr
    ⟨row, List.mem_of_mem_filter hmem, List.of_mem_filter hmem⟩

/-- After an upsert whose key already exists, the new row is the first
match of its key. -/
lemma upsert_head_of_exists {t : Table} {h p : Int} {row newRow : CacheRow}
    (hhead : (t.filter (rowMatches h p)).head? = some row)
    (hmatch : rowMatches h p newRow = true) :
    ((upsertRow t newRow).filter (rowMatches h p)).head? = some newRow := by
  have hk := rowMatches_iff.mp hmatch
  unfold upsertRow
  have hany : t.any (rowMatches newRow.hash newRow.player) = true := by
    rw [hk.1, hk.2]; exact any_of_filter_head hhead
  rw [if_pos hany, hk.1, hk.2]
  exact filter_head_map_replace t h p newRow hmatch (by simp [hhead])

/-- The first matching row's depth for a key never decreases under one
store at any key. -/
lemma lookupDepth_store_mono (t : Table) (h0 p0 d0 : Int)
    (evals : List ((Int × Int) × FVal)) (h p : Int) (da : Int)
    (hda : lookupDepth t h p = some da) :
    ∃ db, lookupDepth (store_position t h0 p0 d0 evals).2 h p = some db ∧ da ≤ db := by
  obtain ⟨row1, hrow1, hd1⟩ : ∃ row1, (t.filter (rowMatches h p)).head? = some row1 ∧
      row1.depth = da := by
    unfold lookupDepth at hda
    rcases hh : (t.filter (rowMatches h p)).head? with _ | r
    · rw [hh] at hda; simp at hda
    · rw [hh] at hda; exact ⟨r, rfl, by simpa using hda⟩
  by_cases hk : h0 = h ∧ p0 = p
  · obtain ⟨rfl, rfl⟩ := hk
    by_cases hle : d0 ≤ row1.depth
    · rw [store_position_of_head_le hrow1 hle]
      exact ⟨da, hda, le_refl da⟩
    · rw [store_position_of_head_gt hrow1 (by omega)]
      refine ⟨d0, ?_, by omega⟩
      unfold lookupDepth
      rw [upsert_head_of_exists hrow1 (by simp [rowMatches])]
      rfl
  · have hdisj : ∀ r, rowMatches h p r = true → rowMatches h0 p0 r = false := by
      intro r hr
      rcases hb : rowMatches h0 p0 r with _ | _
      · rfl
      · obtain ⟨e1, e2⟩ := rowMatches_iff.mp hr
        obtain ⟨e3, e4⟩ := rowMatches_iff.mp hb
        exact absurd ⟨e3.symm.trans e1, e4.symm.trans e2⟩ hk
    have hnew : ∀ d' ms, rowMatches h p (⟨h0, p0, d', ms⟩ : CacheRow) = false := by
      intro d' ms
      rcases hb : rowMatches h p (⟨h0, p0, d', ms⟩ : CacheRow) with _ | _
      · rfl
      · obtain ⟨e1, e2⟩ := rowMatches_iff.mp hb
        exact absurd ⟨e1, e2⟩ hk
    have hupsert : ∀ d' ms,
        ((upsertRow t ⟨h0, p0, d', ms⟩).filter (rowMatches h p)) =
          t.filter (rowMatches h p) := by
      intro d' ms
      unfold upsertRow
      by_cases hany : t.any (rowMatches h0 p0) = true
      · rw [if_pos hany]
        exact filter_map_replace_other t h p _ _ hdisj (hnew d' ms)
      · rw [if_neg hany, List.filter_append]
        simp [List.filter_cons, hnew d' ms]
    rcases hh : (t.filter (rowMatches h0 p0)).head? with _ | r0
    · rw [store_position_of_head_none hh]
      exact ⟨da, by unfold lookupDepth at hda ⊢; rw [hupsert]; exact hda, le_refl da⟩
    · by_cases hle : d0 ≤ r0.depth
      · rw [store_position_of_head_le hh hle]
        exact ⟨da, hda, le_refl da⟩
      · rw [store_position_of_head_gt hh (by omega)]
        exact ⟨da, by unfold lookupDepth at hda ⊢; rw [hupsert]; exact hda, le_refl da⟩

/-- Across any sequence of stores, the recorded depth of a key never
decreases. -/
lemma runStores_mono (ops : List (Int × Int × Int × List ((Int × Int) × FVal))) :
    ∀ (t : Table) (h p da : Int), lookupDepth t h p = some da →
      ∃ db, lookupDepth (runStores t ops) h p = some db ∧ da ≤ db := by
  induction ops with
  | nil => exact fun t h p da hda => ⟨da, hda, le_refl da⟩
  | cons op rest ih =>
    intro t h p da hda
    obtain ⟨d1, hd1, hle1⟩ := lookupDepth_store_mono t op.1 op.2.1 op.2.2.1 op.2.2.2 h p da hda
    obtain ⟨db, hdb, hle2⟩ := ih _ h p d1 hd1
    exact ⟨db, hdb, le_trans hle1 hle2⟩

/-- C5: the cache's depth-dominance contract.  (i) A store at depth at
most the existing entry's depth leaves the table unchanged and still
reports success.  (ii) A store at strictly greater depth reports success
and replaces the key's entry by the new depth and serialized move map.
(iii) A lookup succeeds exactly when a row for the key exists with stored
depth at least min_depth (for tables whose rows parse, as every
writer-produced row does).  (iv) Across any sequence of stores the depth
recorded for a key never decreases. -/
theorem cache_depth_dominance :
    (∀ (t : Table) (h p d : Int) (evals : List ((Int × Int) × FVal)) (row : CacheRow),
      (t.filter (rowMatches h p)).head? = some row → d ≤ row.depth →
      store_position t h p d evals = (true, t)) ∧
    (∀ (t : Table) (h p d : Int) (evals : List ((Int × Int) × FVal)) (row : CacheRow),
      (t.filter (rowMatches h p)).head? = some row → row.depth < d →
      (store_position t h p d evals).1 = true ∧
      ((store_position t h p d evals).2.filter (rowMatches h p)).head? =
        some ⟨h, p, d, movesToJson evals⟩) ∧
    (∀ (t : Table) (h p m : Int), rowsParse t →
      ((get_cached_position t h p m).isSome ↔
        ∃ row ∈ t, row.hash = h ∧ row.player = p ∧ m ≤ row.depth)) ∧
    (∀ (ops : List (Int × Int × Int × List ((Int × Int) × FVal))) (t : Table) (h p da : Int),
      lookupDepth t h p = some da →
      ∃ db, lookupDepth (runStores t ops) h p = some db ∧ da ≤ db) := by
  refine ⟨?_, ?_, ?_, fun ops t h p da hda => runStores_mono ops t h p da hda⟩
  · intro t h p d evals row hhead hle
    exact store_position_of_head_le hhead hle
  · intro t h p d evals row hhead hlt
    rw [store_position_of_head_gt hhead hlt]
    exact ⟨rfl, upsert_head_of_exists hhead (by simp [rowMatches])⟩
  · intro t h p m hparse
    unfold get_cached_position
    rcases hh : (t.filter (fun row => rowMatches h p row && decide (m ≤ row.depth))).head?
      with _ | row
    · have hempty := List.head?_eq_none_iff.mp hh
      simp only [Option.isSome_none, Bool.false_eq_true, false_iff]
      rintro ⟨row, hrow, e1, e2, e3⟩
      have : row ∈ t.filter (fun row => rowMatches h p row && decide (m ≤ row.depth)) :=
        List.mem_filter.mpr ⟨hrow, by simp [rowMatches, e1, e2, e3]⟩
      rw [hempty] at this
      simp at this
    · have hmem := List.mem_of_mem_head? hh
      have hint := List.mem_filter.mp hmem
      have hpred := hint.2
      simp only [Bool.and_eq_true, decide_eq_true_eq] at hpred
      obtain ⟨e12, e3⟩ := hpred
      obtain ⟨e1, e2⟩ := rowMatches_iff.mp e12
      have hps : (parseMovesJson row.moves).isSome := hparse row hint.1
      rcases hpm : parseMovesJson row.moves with _ | ms
      · rw [hpm] at hps; simp at hps
      · simp only [hpm, Option.map_some]
        exact ⟨fun _ => ⟨row, hint.1, e1, e2, e3⟩, fun _ => rfl⟩

/-- C5 witness: a concrete table exercising all four contract clauses. -/
theorem cache_depth_dominance_witness :
    store_position [⟨77, 1, 4, [("(2,3)", FVal.val 5)]⟩] 77 1 3 [((4, 5), FVal.val 9)] =
      (true, [⟨77, 1, 4, [("(2,3)", FVal.val 5)]⟩]) ∧
    ((store_position [⟨77, 1, 4, [("(2,3)", FVal.val 5)]⟩] 77 1 5
        [((4, 5), FVal.val 9)]).1 = true ∧
      ((store_position [⟨77, 1, 4, [("(2,3)", FVal.val 5)]⟩] 77 1 5
        [((4, 5), FVal.val 9)]).2.filter (rowMatches 77 1)).head? =
        some ⟨77, 1, 5, movesToJson [((4, 5), FVal.val 9)]⟩) ∧
    ((get_cached_position [⟨77, 1, 4, [("(2,3)", FVal.val 5)]⟩] 77 1 5).isSome ↔
      ∃ row ∈ [(⟨77, 1, 4, [("(2,3)", FVal.val 5)]⟩ : CacheRow)],
        row.hash = 77 ∧ row.player = 1 ∧ 5 ≤ row.depth) ∧
    (∃ db, lookupDepth (runStores [⟨77, 1, 4, [("(2,3)", FVal.val 5)]⟩]
        [(77, 1, 6, [((4, 5), FVal.val 9)]), (77, 1, 2, [])]) 77 1 = some db ∧ 4 ≤ db) :=
  ⟨cache_depth_dominance.1 [⟨77, 1, 4, [("(2,3)", FVal.val 5)]⟩] 77 1 3 [((4, 5), FVal.val 9)]
      ⟨77, 1, 4, [("(2,3)", FVal.val 5)]⟩ (by decide) (by decide),
    cache_depth_dominance.2.1 [⟨77, 1, 4, [("(2,3)", FVal.val 5)]⟩] 77 1 5
      [((4, 5), FVal.val 9)] ⟨77, 1, 4, [("(2,3)", FVal.val 5)]⟩ (by decide) (by decide),
    cache_depth_dominance.2.2.1 [⟨77, 1, 4, [("(2,3)", FVal.val 5)]⟩] 77 1 5 (by decide),
    cache_depth_dominance.2.2.2 [(77, 1, 6, [((4, 5), FVal.val 9)]), (77, 1, 2, [])]
      [⟨77, 1, 4, [("(2,3)", FVal.val 5)]⟩] 77 1 4 (by decide)⟩

lemma foldl_xor_init (f : α → Nat) (l : List α) (a : Nat) :
    l.foldl (fun h x => h ^^^ f x) a = a ^^^ l.foldl (fun h x => h ^^^ f x) 0 := by
  induction l generalizing a with
  | nil => simp
  | cons x xs ih =>
    simp only [List.foldl_cons]
    rw [ih (a ^^^ f x), ih (0 ^^^ f x), Nat.zero_xor, Nat.xor_assoc]

lemma xor_exchange (a b c d : Nat) : (a ^^^ b) ^^^ (c ^^^ d) = (a ^^^ c) ^^^ (b ^^^ d) := by
  rw [Nat.xor_assoc, Nat.xor_assoc, ← Nat.xor_assoc b c d, Nat.xor_comm b c,
    Nat.xor_assoc c b d]

lemma foldl_xor_combine (f g : α → Nat) (l : List α) :
    (l.foldl (fun h x => h ^^^ f x) 0) ^^^ (l.foldl (fun h x => h ^^^ g x) 0) =
      l.foldl (fun h x => h ^^^ (f x ^^^ g x)) 0 := by
  induction l with
  | nil => simp
  | cons x xs ih =>
    simp only [List.foldl_cons, Nat.zero_xor]
    rw [foldl_xor_init f xs (f x), foldl_xor_init g xs (g x),
      foldl_xor_init (fun x => f x ^^^ g x) xs (f x ^^^ g x), ← ih, xor_exchange]

lemma foldl_congr_fun {f g : β → α → β} (l : List α) (b : β)
    (h : ∀ b x, x ∈ l → f b x = g b x) : l.foldl f b = l.foldl g b := by
  induction l generalizing b with
  | nil => rfl
  | cons x xs ih =>
    simp only [List.foldl_cons]
    rw [h b x (List.mem_cons_self x xs)]
    exact ih _ fun b' y hy => h b' y (List.mem_cons_of_mem x hy)

/-- The XOR each square contributes to the incremental update. -/
def updateDiff (H : ZobristHasher) (b old_board : Board) (rc : Nat × Nat) : Nat :=
  let old_piece := (old_board.getD rc.1 []).getD rc.2 0
  let new_piece := (b.getD rc.1 []).getD rc.2 0
  if old_piece != new_piece then
    (if old_piece != 0 then H.pieceHashes rc.1 rc.2 old_piece else 0) ^^^
      (if new_piece != 0 then H.pieceHashes rc.1 rc.2 new_piece else 0)
  else 0

lemma update_hash_eq_fold (H : ZobristHasher) (current : Nat) (b old_board : Board)
    (op np : Int) :
    update_hash_after_move H current b old_board op np =
      hashCells.foldl (fun h rc => h ^^^ updateDiff H b old_board rc)
        ((current ^^^ H.playerHash op) ^^^ H.playerHash np) := by
  unfold update_hash_after_move
  refine foldl_congr_fun hashCells _ fun h rc _ => ?_
  unfold updateDiff
  rcases hne : ((old_board.getD rc.1 []).getD rc.2 0 != (b.getD rc.1 []).getD rc.2 0)
    with _ | _
  · simp only [hne, Bool.false_eq_true, if_false, Nat.xor_zero]
  · simp only [hne, if_true]
    rcases ho : ((old_board.getD rc.1 []).getD rc.2 0 != 0) with _ | _ <;>
      rcases hn : ((b.getD rc.1 []).getD rc.2 0 != 0) with _ | _ <;>
      simp [ho, hn, Nat.xor_assoc]

lemma contribution_xor_diff (H : ZobristHasher) (b old_board : Board) (rc : Nat × Nat) :
    cellContribution H old_board rc ^^^ updateDiff H b old_board rc =
      cellContribution H b rc := by
  simp only [cellContribution, updateDiff]
  by_cases heq : (old_board.getD rc.1 []).getD rc.2 0 = (b.getD rc.1 []).getD rc.2 0
  · rw [heq, bne_self_eq_false]
    simp
  · have h1 : ((old_board.getD rc.1 []).getD rc.2 0 != (b.getD rc.1 []).getD rc.2 0) = true := by
      simpa using heq
    rw [h1]
    simp only [eq_self_iff_true, if_true]
    rw [← Nat.xor_assoc, Nat.xor_self, Nat.zero_xor]

/-- C6: with a fixed hasher, compute_hash is deterministic, and for any
two boards and players the incremental update of the old position's fresh
hash equals the fresh hash of the new position, bit for bit. -/
theorem zobrist_incremental_agrees :
    (∀ (H : ZobristHasher) (b : Board) (player : Int),
      compute_hash H b player = compute_hash H b player) ∧
    (∀ (H : ZobristHasher) (old_board new_board : Board) (old_player new_player : Int),
      isValidBoard old_board → isValidBoard new_board →
      cellsWellFormed old_board → cellsWellFormed new_board →
      (old_player = 1 ∨ old_player = -1) → (new_player = 1 ∨ new_player = -1) →
      update_hash_after_move H (compute_hash H old_board old_player) new_board old_board
        old_player new_player = compute_hash H new_board new_player) := by
  refine ⟨fun H b player => rfl, ?_⟩
  intro H old_board new_board op np _ _ _ _ _ _
  rw [update_hash_eq_fold]
  unfold compute_hash
  generalize hashCells = cells
  set F_old := cells.foldl (fun h rc => h ^^^ cellContribution H old_board rc) 0 with hF
  have hinit : ((F_old ^^^ H.playerHash op) ^^^ H.playerHash op) ^^^ H.playerHash np =
      F_old ^^^ H.playerHash np := by
    rw [Nat.xor_assoc F_old (H.playerHash op) (H.playerHash op), Nat.xor_self, Nat.xor_zero]
  rw [hinit, foldl_xor_init (updateDiff H new_board old_board) cells,
    Nat.xor_assoc F_old (H.playerHash np), Nat.xor_comm (H.playerHash np),
    ← Nat.xor_assoc F_old, hF, foldl_xor_combine]
  congr 1
  exact foldl_congr_fun cells 0 fun h rc _ => by
    rw [contribution_xor_diff H new_board old_board rc]

/-- The position reached from the start by player 1 playing (2, 3). -/
def boardAfter23 : Board :=
  [[0,0,0,0,0,0,0,0],[0,0,0,0,0,0,0,0],[0,0,0,1,0,0,0,0],[0,0,0,1,1,0,0,0],
   [0,0,0,1,-1,0,0,0],[0,0,0,0,0,0,0,0],[0,0,0,0,0,0,0,0],[0,0,0,0,0,0,0,0]]

/-- A hasher with distinct nonzero table values, for the C6 witness. -/
def demoHasher : ZobristHasher :=
  ⟨fun r c piece => 4 * (8 * r + c) + (if piece = 1 then 1 else 2),
   fun pl => if pl = 1 then 1000000 else 2000000⟩

set_option maxRecDepth 8000

/-- C6 witness: the incremental update across the opening move (2, 3)
agrees with the fresh hash of the resulting position. -/
theorem zobrist_incremental_agrees_witness :
    update_hash_after_move demoHasher (compute_hash demoHasher initialBoard 1) boardAfter23
      initialBoard 1 (-1) = compute_hash demoHasher boardAfter23 (-1) :=
  zobrist_incremental_agrees.2 demoHasher initialBoard boardAfter23 1 (-1) (by decide)
    (by decide) (by decide) (by decide) (by decide) (by decide)

/-- C9: on any legal move, make_move applies it and determines the next
player: the opponent unless the opponent has no legal moves on the new
board, in which case the same player continues with freshly computed
moves; if those are also empty the game is over, and the winner is the
side with strictly more discs (none on a tie, and none while the game is
still running). -/
theorem make_move_pass_terminal_winner (b : Board) (player row col : Int)
    (hleg : get_flips b player row col ≠ []) :
    ∃ nb, apply_move b player row col = .ok nb ∧
    ∃ res, make_move b player row col = .ok res ∧
      res.board = nb ∧
      (get_valid_moves nb (-player) ≠ [] →
        res.next_player = -player ∧ res.valid_moves = get_valid_moves nb (-player) ∧
        res.game_over = false) ∧
      (get_valid_moves nb (-player) = [] →
        res.next_player = player ∧ res.valid_moves = get_valid_moves nb player ∧
        res.game_over = (get_valid_moves nb player).isEmpty) ∧
      (res.game_over = true →
        ((count_discs nb).2 < (count_discs nb).1 → res.winner = some 1) ∧
        ((count_discs nb).1 < (count_discs nb).2 → res.winner = some (-1)) ∧
        ((count_discs nb).1 = (count_discs nb).2 → res.winner = none)) ∧
      (res.game_over = false → res.winner = none) := by
  have hne : (get_flips b player row col).isEmpty = false := by
    simpa [List.isEmpty_iff] using hleg
  refine ⟨(get_flips b player row col).foldl (fun nb rc => setCell nb rc.1 rc.2 player)
    (setCell b row col player), ?_, ?_⟩
  · simp only [apply_move, hne, Bool.false_eq_true, if_false]
  · set nb := (get_flips b player row col).foldl (fun nb rc => setCell nb rc.1 rc.2 player)
      (setCell b row col player) with hnb
    have happ : apply_move b player row col = .ok nb := by
      simp only [apply_move, hne, Bool.false_eq_true, if_false, hnb]
    unfold make_move
    rw [happ]
    simp only [Except.map]
    refine ⟨_, rfl, rfl, ?_, ?_, ?_, ?_⟩
    · intro hm
      have hm' : (get_valid_moves nb (-player)).isEmpty = false := by
        simpa [List.isEmpty_iff] using hm
      simp [hm']
    · intro hm
      have hm' : (get_valid_moves nb (-player)).isEmpty = true := by simpa using hm
      simp [hm']
    · intro hgo
      have hgo' : (if (get_valid_moves nb (-player)).isEmpty = true then get_valid_moves nb player
          else get_valid_moves nb (-player)).isEmpty = true := hgo
      refine ⟨fun hlt => ?_, fun hlt => ?_, fun heq => ?_⟩
      · rw [if_pos (by omega : (count_discs nb).1 > (count_discs nb).2), if_pos hgo']
      · rw [if_neg (by omega : ¬(count_discs nb).1 > (count_discs nb).2),
          if_pos (by omega : (count_discs nb).2 > (count_discs nb).1), if_pos hgo']
      · rw [if_neg (by omega : ¬(count_discs nb).1 > (count_discs nb).2),
          if_neg (by omega : ¬(count_discs nb).2 > (count_discs nb).1), if_pos hgo']
    · intro hgo
      have hgo' : (if (get_valid_moves nb (-player)).isEmpty = true then get_valid_moves nb player
          else get_valid_moves nb (-player)).isEmpty = false := hgo
      have hcond : ¬((if (get_valid_moves nb (-player)).isEmpty = true then
          get_valid_moves nb player else get_valid_moves nb (-player)).isEmpty = true) := by
        intro hc
        rw [hc] at hgo'
        exact absurd hgo' (by simp)
      rw [if_neg hcond]

/-- C9 witness: the opening move (2, 3) from the initial position. -/
theorem make_move_pass_terminal_winner_witness :
    ∃ nb, apply_move initialBoard 1 2 3 = .ok nb ∧
    ∃ res, make_move initialBoard 1 2 3 = .ok res ∧
      res.board = nb ∧
      (get_valid_moves nb (-1) ≠ [] →
        res.next_player = -1 ∧ res.valid_moves = get_valid_moves nb (-1) ∧
        res.game_over = false) ∧
      (get_valid_moves nb (-1) = [] →
        res.next_player = 1 ∧ res.valid_moves = get_valid_moves nb 1 ∧
        res.game_over = (get_valid_moves nb 1).isEmpty) ∧
      (res.game_over = true →
        ((count_discs nb).2 < (count_discs nb).1 → res.winner = some 1) ∧
        ((count_discs nb).1 < (count_discs nb).2 → res.winner = some (-1)) ∧
        ((count_discs nb).1 = (count_discs nb).2 → res.winner = none)) ∧
      (res.game_over = false → res.winner = none) :=
  make_move_pass_terminal_winner initialBoard 1 2 3 (by decide)

lemma scanRay_mem {b : Board} {opp dr dc : Int} :
    ∀ {fuel : Nat} {r0 c0 : Int} {x : Int × Int},
      x ∈ (scanRay b opp dr dc fuel r0 c0).1 →
      inBounds x.1 x.2 = true ∧ cellAt b x.1 x.2 = opp ∧
      ∃ k : Nat, x.1 = r0 + k * dr ∧ x.2 = c0 + k * dc := by
  intro fuel
  induction fuel with
  | zero => intro r0 c0 x hx; simp [scanRay] at hx
  | succ n ih =>
    intro r0 c0 x hx
    unfold scanRay at hx
    by_cases hc : (inBounds r0 c0 && cellAt b r0 c0 == opp) = true
    · rw [if_pos hc] at hx
      obtain ⟨h1, h2⟩ : inBounds r0 c0 = true ∧ (cellAt b r0 c0 == opp) = true := by
        simpa using hc
      rcases List.mem_cons.mp hx with rfl | hx'
      · exact ⟨h1, by simpa using h2, 0, by push_cast; ring, by push_cast; ring⟩
      · obtain ⟨g1, g2, k, hk1, hk2⟩ := ih hx'
        refine ⟨g1, g2, k + 1, ?_, ?_⟩
        · rw [hk1]; push_cast; ring
        · rw [hk2]; push_cast; ring
    · rw [if_neg hc] at hx
      simp at hx

lemma scanRay_nodup {b : Board} {opp dr dc : Int} (hd : ¬(dr = 0 ∧ dc = 0)) :
    ∀ (fuel : Nat) (r0 c0 : Int), ((scanRay b opp dr dc fuel r0 c0).1).Nodup := by
  intro fuel
  induction fuel with
  | zero => intro r0 c0; simp [scanRay]
  | succ n ih =>
    intro r0 c0
    unfold scanRay
    by_cases hc : (inBounds r0 c0 && cellAt b r0 c0 == opp) = true
    · rw [if_pos hc]
      refine List.nodup_cons.mpr ⟨?_, ih (r0 + dr) (c0 + dc)⟩
      intro hmem
      obtain ⟨_, _, k, hk1, hk2⟩ := scanRay_mem hmem
      have e1 : dr * (1 + (k : Int)) = 0 := by
        have : dr + (k : Int) * dr = 0 := by linarith
        ring_nf
        ring_nf at this
        linarith
      have e2 : dc * (1 + (k : Int)) = 0 := by
        have : dc + (k : Int) * dc = 0 := by linarith
        ring_nf
        ring_nf at this
        linarith
      have hkpos : (1 : Int) + k ≠ 0 := by positivity
      exact hd ⟨by rcases mul_eq_zero.mp e1 with h | h; exact h; exact absurd h hkpos,
        by rcases mul_eq_zero.mp e2 with h | h; exact h; exact absurd h hkpos⟩
    · rw [if_neg hc]
      simp

lemma dirFlips_mem {b : Board} {player row col : Int} {d : Int × Int} {x : Int × Int}
    (hx : x ∈ dirFlips b player row col d) :
    inBounds x.1 x.2 = true ∧ cellAt b x.1 x.2 = -player ∧
    ∃ k : Nat, 1 ≤ k ∧ x.1 = row + k * d.1 ∧ x.2 = col + k * d.2 := by
  simp only [dirFlips] at hx
  split at hx
  · obtain ⟨h1, h2, k, hk1, hk2⟩ := scanRay_mem hx
    refine ⟨h1, h2, k + 1, by omega, ?_, ?_⟩
    · rw [hk1]; push_cast; ring
    · rw [hk2]; push_cast; ring
  · simp at hx

lemma dirFlips_nodup {b : Board} {player row col : Int} {d : Int × Int}
    (hd : ¬(d.1 = 0 ∧ d.2 = 0)) : (dirFlips b player row col d).Nodup := by
  simp only [dirFlips]
  split
  · exact scanRay_nodup hd 8 (row + d.1) (col + d.2)
  · exact List.nodup_nil

lemma directions_spec : ∀ d ∈ DIRECTIONS,
    (d.1 = -1 ∨ d.1 = 0 ∨ d.1 = 1) ∧ (d.2 = -1 ∨ d.2 = 0 ∨ d.2 = 1) ∧
    ¬(d.1 = 0 ∧ d.2 = 0) := by decide

lemma sign_component_eq {a b k1 k2 : Int} (ha : a = -1 ∨ a = 0 ∨ a = 1)
    (hb : b = -1 ∨ b = 0 ∨ b = 1) (hk1 : 1 ≤ k1) (hk2 : 1 ≤ k2)
    (h : k1 * a = k2 * b) : a = b := by
  rcases ha with rfl | rfl | rfl <;> rcases hb with rfl | rfl | rfl <;> omega

lemma ray_unique_direction {d1 d2 : Int × Int} (h1 : d1 ∈ DIRECTIONS) (h2 : d2 ∈ DIRECTIONS)
    {k1 k2 : Int} (hk1 : 1 ≤ k1) (hk2 : 1 ≤ k2)
    (hr : k1 * d1.1 = k2 * d2.1) (hc : k1 * d1.2 = k2 * d2.2) : d1 = d2 := by
  obtain ⟨ha1, hb1, _⟩ := directions_spec d1 h1
  obtain ⟨ha2, hb2, _⟩ := directions_spec d2 h2
  have e1 : d1.1 = d2.1 := sign_component_eq ha1 ha2 hk1 hk2 hr
  have e2 : d1.2 = d2.2 := sign_component_eq hb1 hb2 hk1 hk2 hc
  rcases d1 with ⟨x1, y1⟩
  rcases d2 with ⟨x2, y2⟩
  simp only at e1 e2
  rw [e1, e2]

lemma foldl_append_eq_flatten (f : α → List β) (l : List α) (init : List β) :
    l.foldl (fun acc x => acc ++ f x) init = init ++ (l.map f).flatten := by
  induction l generalizing init with
  | nil => simp
  | cons x xs ih => simp [ih, List.append_assoc]

lemma get_flips_guards {b : Board} {player row col : Int}
    (h : get_flips b player row col ≠ []) :
    inBounds row col = true ∧ cellAt b row col = 0 := by
  unfold get_flips at h
  by_cases h1 : inBounds row col = true
  · by_cases h2 : cellAt b row col = 0
    · exact ⟨h1, h2⟩
    · rw [if_neg (by simp [h1]), if_pos (by simpa using h2)] at h
      exact absurd rfl h
  · rw [if_pos (by simpa using h1)] at h
    exact absurd rfl h

lemma get_flips_eq_flatten {b : Board} {player row col : Int}
    (hin : inBounds row col = true) (hcell : cellAt b row col = 0) :
    get_flips b player row col =
      (DIRECTIONS.map (dirFlips b player row col)).flatten := by
  unfold get_flips
  rw [if_neg (by simp [hin]), if_neg (by simp [hcell])]
  simpa using foldl_append_eq_flatten (dirFlips b player row col) DIRECTIONS []

lemma get_flips_mem {b : Board} {player row col : Int} {x : Int × Int}
    (hx : x ∈ get_flips b player row col) :
    inBounds x.1 x.2 = true ∧ cellAt b x.1 x.2 = -player := by
  have hne : get_flips b player row col ≠ [] := by
    intro h0; rw [h0] at hx; simp at hx
  obtain ⟨hin, hcell⟩ := get_flips_guards hne
  rw [get_flips_eq_flatten hin hcell] at hx
  obtain ⟨l, hl, hxl⟩ := List.mem_flatten.mp hx
  obtain ⟨d, _, rfl⟩ := List.mem_map.mp hl
  obtain ⟨g1, g2, _⟩ := dirFlips_mem hxl
  exact ⟨g1, g2⟩

lemma get_flips_nodup (b : Board) (player row col : Int) :
    (get_flips b player row col).Nodup := by
  by_cases hne : get_flips b player row col = []
  · rw [hne]; exact List.nodup_nil
  · obtain ⟨hin, hcell⟩ := get_flips_guards hne
    rw [get_flips_eq_flatten hin hcell]
    refine List.nodup_flatten.mpr ⟨?_, ?_⟩
    · intro s hs
      obtain ⟨d, hd, rfl⟩ := List.mem_map.mp hs
      exact dirFlips_nodup (directions_spec d hd).2.2
    · refine List.pairwise_map.mpr ?_
      refine List.Pairwise.imp_of_mem ?_ (by decide : DIRECTIONS.Pairwise (· ≠ ·))
      intro d1 d2 hd1 hd2 hne12 x hx1 hx2
      obtain ⟨_, _, k1, hk1, e11, e12⟩ := dirFlips_mem hx1
      obtain ⟨_, _, k2, hk2, e21, e22⟩ := dirFlips_mem hx2
      refine hne12 (@ray_unique_direction d1 d2 hd1 hd2 (k1 : Int) (k2 : Int)
        (by exact_mod_cast hk1) (by exact_mod_cast hk2) ?_ ?_)
      · have := e11.symm.trans e21; linarith
      · have := e12.symm.trans e22; linarith

lemma count_set_balance {l : List Int} :
    ∀ {i : Nat}, i < l.length → ∀ v w : Int,
      (l.set i v).count w + (if l.getD i 0 = w then 1 else 0) =
        l.count w + (if v = w then 1 else 0) := by
  induction l with
  | nil => intro i hi; simp at hi
  | cons a t ih =>
    intro i hi v w
    cases i with
    | zero =>
      simp only [List.set_cons_zero, List.count_cons, List.getD_cons_zero]
      rcases hb : (a == w) with _ | _ <;> rcases hv : (v == w) with _ | _ <;>
        simp_all [beq_iff_eq]
    | succ n =>
      have hn : n < t.length := by simpa using hi
      simp only [List.set_cons_succ, List.count_cons, List.getD_cons_succ]
      have := ih hn v w
      rcases hb : (a == w) with _ | _ <;> simp [hb] <;>
        (rw [List.getD_eq_getElem?_getD] at this; omega)

lemma sum_set_balance {l : List Nat} :
    ∀ {i : Nat}, i < l.length → ∀ x : Nat, (l.set i x).sum + l.getD i 0 = l.sum + x := by
  induction l with
  | nil => intro i hi; simp at hi
  | cons a t ih =>
    intro i hi x
    cases i with
    | zero => simp [List.sum_cons]; omega
    | succ n =>
      have hn : n < t.length := by simpa using hi
      simp only [List.set_cons_succ, List.sum_cons, List.getD_cons_succ]
      have := ih hn x
      omega

lemma discCount_eq_sum (b : Board) (v : Int) :
    discCount b v = (b.map (fun row => row.count v)).sum := by
  have key : ∀ (l : Board) (init : Nat),
      l.foldl (fun acc row => acc + row.count v) init =
        init + (l.map (fun row => row.count v)).sum := by
    intro l
    induction l with
    | nil => intro init; simp
    | cons a t ih => intro init; simp [ih]; omega
  simpa using key b 0

lemma inBounds_fields {r c : Int} (h : inBounds r c = true) :
    0 ≤ r ∧ r < 8 ∧ 0 ≤ c ∧ c < 8 := by
  simp only [inBounds, Bool.and_eq_true, decide_eq_true_eq] at h
  exact ⟨h.1.1.1, h.1.1.2, h.1.2, h.2⟩

lemma discCount_setCell (b : Board) (r c v w : Int) (hin : inBounds r c = true)
    (hb : isValidBoard b) :
    discCount (setCell b r c v) w + (if cellAt b r c = w then 1 else 0) =
      discCount b w + (if v = w then 1 else 0) := by
  obtain ⟨hr0, hr8, hc0, hc8⟩ := inBounds_fields hin
  have hrlt : r.toNat < b.length := by rw [hb.1]; omega
  have hrow : b.getD r.toNat [] = b[r.toNat] := by
    rw [List.getD_eq_getElem?_getD, List.getElem?_eq_getElem hrlt, Option.getD_some]
  have hrowmem : b[r.toNat] ∈ b := List.getElem_mem hrlt
  have hrowlen : (b.getD r.toNat []).length = 8 := by rw [hrow]; exact hb.2 _ hrowmem
  have hclt : c.toNat < (b.getD r.toNat []).length := by rw [hrowlen]; omega
  have hmapset : (setCell b r c v).map (fun row => row.count w) =
      (b.map (fun row => row.count w)).set r.toNat
        (((b.getD r.toNat []).set c.toNat v).count w) := by
    simp [setCell, List.map_set]
  have hmaplen : r.toNat < (b.map (fun row => row.count w)).length := by
    rw [List.length_map]; exact hrlt
  have hmapget : (b.map (fun row => row.count w)).getD r.toNat 0 =
      (b.getD r.toNat []).count w := by
    rw [List.getD_eq_getElem?_getD, List.getElem?_map, List.getElem?_eq_getElem hrlt, hrow]
    rfl
  have hsum := sum_set_balance hmaplen (((b.getD r.toNat []).set c.toNat v).count w)
  have hcount := count_set_balance hclt v w
  rw [discCount_eq_sum, discCount_eq_sum, hmapset]
  rw [hmapget] at hsum
  have hcell : cellAt b r c = (b.getD r.toNat []).getD c.toNat 0 := rfl
  rw [hcell]
  omega

lemma getD_set_ne {l : List α} {i j : Nat} (h : i ≠ j) (x : α) (d : α) :
    (l.set i x).getD j d = l.getD j d := by
  simp [List.getD_eq_getElem?_getD, List.getElem?_set_ne h]

lemma cellAt_setCell_ne (b : Board) {r c r' c' : Int} (v : Int)
    (hin : inBounds r c = true) (hin' : inBounds r' c' = true) (hne : (r', c') ≠ (r, c)) :
    cellAt (setCell b r c v) r' c' = cellAt b r' c' := by
  obtain ⟨hr0, hr8, hc0, hc8⟩ := inBounds_fields hin
  obtain ⟨hr0', hr8', hc0', hc8'⟩ := inBounds_fields hin'
  by_cases hrr : r'.toNat = r.toNat
  · have hreq : r' = r := by omega
    have hcc : c' ≠ c := by
      intro hceq
      exact hne (by rw [hreq, hceq])
    have hccn : c.toNat ≠ c'.toNat := by omega
    by_cases hlt : r.toNat < b.length
    · have hinner : (setCell b r c v).getD r'.toNat [] =
          (b.getD r.toNat []).set c.toNat v := by
        unfold setCell
        rw [hrr, List.getD_eq_getElem?_getD, List.getElem?_set_self hlt, Option.getD_some]
      unfold cellAt
      rw [hinner, getD_set_ne hccn, hrr]
    · have hnoop : setCell b r c v = b := by
        unfold setCell
        exact List.set_eq_of_length_le (by omega)
      rw [hnoop]
  · unfold cellAt setCell
    rw [getD_set_ne (by omega : r.toNat ≠ r'.toNat)]

lemma setCell_isValid {b : Board} {r c : Int} (v : Int) (hin : inBounds r c = true)
    (hb : isValidBoard b) : isValidBoard (setCell b r c v) := by
  obtain ⟨hr0, hr8, _, _⟩ := inBounds_fields hin
  refine ⟨by simp [setCell, hb.1], ?_⟩
  intro row hrow
  rcases List.mem_or_eq_of_mem_set hrow with h | rfl
  · exact hb.2 row h
  · have hrlt : r.toNat < b.length := by rw [hb.1]; omega
    have hrow8 : (b.getD r.toNat []).length = 8 := by
      rw [List.getD_eq_getElem?_getD, List.getElem?_eq_getElem hrlt, Option.getD_some]
      exact hb.2 _ (List.getElem_mem hrlt)
    simpa using hrow8

/-- Setting a list of distinct opponent-held in-bounds cells to the mover's
color adds one mover disc and removes one opponent disc per cell, and
leaves every other cell unchanged. -/
lemma foldl_setCell_spec (p : Int) (hp : p = 1 ∨ p = -1) :
    ∀ (cells : List (Int × Int)) (b : Board), isValidBoard b → cells.Nodup →
      (∀ x ∈ cells, inBounds x.1 x.2 = true ∧ cellAt b x.1 x.2 = -p) →
      isValidBoard (cells.foldl (fun acc rc => setCell acc rc.1 rc.2 p) b) ∧
      discCount (cells.foldl (fun acc rc => setCell acc rc.1 rc.2 p) b) p =
        discCount b p + cells.length ∧
      discCount (cells.foldl (fun acc rc => setCell acc rc.1 rc.2 p) b) (-p) + cells.length =
        discCount b (-p) := by
  have hnep : -p ≠ p := by rcases hp with rfl | rfl <;> decide
  have hpne : p ≠ -p := fun h => hnep h.symm
  intro cells
  induction cells with
  | nil => intro b hb _ _; exact ⟨hb, by simp, by simp⟩
  | cons x xs ih =>
    intro b hb hnodup hcells
    obtain ⟨hxin, hxcell⟩ := hcells x (List.mem_cons_self x xs)
    obtain ⟨hxnot, hxsnodup⟩ := List.nodup_cons.mp hnodup
    have hb1 : isValidBoard (setCell b x.1 x.2 p) := setCell_isValid p hxin hb
    have hcells1 : ∀ y ∈ xs, inBounds y.1 y.2 = true ∧
        cellAt (setCell b x.1 x.2 p) y.1 y.2 = -p := by
      intro y hy
      obtain ⟨hyin, hycell⟩ := hcells y (List.mem_cons_of_mem x hy)
      have hyne : (y.1, y.2) ≠ (x.1, x.2) := by
        intro he
        apply hxnot
        have : y = x := by
          rcases y with ⟨y1, y2⟩; rcases x with ⟨x1, x2⟩
          simpa using he
        exact this ▸ hy
      exact ⟨hyin, by rw [cellAt_setCell_ne b p hxin hyin hyne]; exact hycell⟩
    obtain ⟨hv, hc1, hc2⟩ := ih (setCell b x.1 x.2 p) hb1 hxsnodup hcells1
    have hbal1 := discCount_setCell b x.1 x.2 p p hxin hb
    have hbal2 := discCount_setCell b x.1 x.2 p (-p) hxin hb
    rw [hxcell, if_neg hnep, if_pos rfl] at hbal1
    rw [hxcell, if_pos rfl, if_neg hpne] at hbal2
    refine ⟨hv, ?_, ?_⟩
    · simp only [List.foldl_cons, List.length_cons]
      omega
    · simp only [List.foldl_cons, List.length_cons]
      omega

/-- C8: a move with a non-empty flip set succeeds and changes the disc
counts exactly as the claim states (mover up by one plus the flip count,
opponent down by the flip count); a move with an empty flip set — in
particular on an occupied or out-of-bounds cell — always fails with the
invalid-move error. -/
theorem apply_move_disc_counts (b : Board) (player row col : Int)
    (hb : isValidBoard b) (hp : player = 1 ∨ player = -1) :
    (get_flips b player row col ≠ [] →
      ∃ nb, apply_move b player row col = .ok nb ∧
        discCount nb player = discCount b player + 1 + (get_flips b player row col).length ∧
        discCount nb (-player) + (get_flips b player row col).length =
          discCount b (-player)) ∧
    (get_flips b player row col = [] →
      apply_move b player row col = .error "Invalid move") := by
  constructor
  · intro hne
    have hnotempty : (get_flips b player row col).isEmpty = false := by
      simpa [List.isEmpty_iff] using hne
    obtain ⟨hin, hcell⟩ := get_flips_guards hne
    have hp0 : player ≠ 0 := by rcases hp with rfl | rfl <;> decide
    have hmem : ∀ x ∈ get_flips b player row col,
        inBounds x.1 x.2 = true ∧ cellAt b x.1 x.2 = -player :=
      fun _ hx => get_flips_mem hx
    have htarget : (row, col) ∉ get_flips b player row col := by
      intro hmem'
      have := (hmem (row, col) hmem').2
      simp only at this
      rw [hcell] at this
      exact hp0 (by omega)
    have hb1 : isValidBoard (setCell b row col player) := setCell_isValid player hin hb
    have hcells1 : ∀ x ∈ get_flips b player row col, inBounds x.1 x.2 = true ∧
        cellAt (setCell b row col player) x.1 x.2 = -player := by
      intro x hx
      obtain ⟨hxin, hxcell⟩ := hmem x hx
      have hxne : (x.1, x.2) ≠ (row, col) := by
        intro he
        apply htarget
        have : x = (row, col) := by rcases x with ⟨x1, x2⟩; simpa using he
        exact this ▸ hx
      exact ⟨hxin, by rw [cellAt_setCell_ne b player hin hxin hxne]; exact hxcell⟩
    obtain ⟨_, hc1, hc2⟩ := foldl_setCell_spec player hp (get_flips b player row col)
      (setCell b row col player) hb1 (get_flips_nodup b player row col) hcells1
    have hbal1 := discCount_setCell b row col player player hin hb
    have hbal2 := discCount_setCell b row col player (-player) hin hb
    rw [hcell, if_neg (by omega : (0 : Int) ≠ player), if_pos rfl] at hbal1
    rw [hcell, if_neg (by omega : (0 : Int) ≠ -player),
      if_neg (by omega : player ≠ -player)] at hbal2
    refine ⟨(get_flips b player row col).foldl (fun nb rc => setCell nb rc.1 rc.2 player)
      (setCell b row col player), ?_, by omega, by omega⟩
    simp only [apply_move, hnotempty, Bool.false_eq_true, if_false]
  · intro hempty
    simp only [apply_move, hempty, List.isEmpty_nil, if_true]

/-- C8 witness: the opening move (2, 3) flips one disc; disc counts go
from (2, 2) to (4, 1). -/
theorem apply_move_disc_counts_witness :
    get_flips initialBoard 1 2 3 ≠ [] ∧
    (∃ nb, apply_move initialBoard 1 2 3 = .ok nb ∧
      discCount nb 1 = discCount initialBoard 1 + 1 + (get_flips initialBoard 1 2 3).length ∧
      discCount nb (-1) + (get_flips initialBoard 1 2 3).length = discCount initialBoard (-1)) ∧
    (get_flips initialBoard 1 0 0 = [] →
      apply_move initialBoard 1 0 0 = .error "Invalid move") :=
  ⟨by decide,
    (apply_move_disc_counts initialBoard 1 2 3 (by decide) (Or.inl rfl)).1 (by decide),
    (apply_move_disc_counts initialBoard 1 0 0 (by decide) (Or.inl rfl)).2⟩

end Othello
